import Mathlib

/-
Verification development for the test-run pipeline of `src/run.rs`
(elm-test-rs): a shallow embedding of its pure logic — exit-code
propagation (`wait_child`), reporter validation, glob-based test file
discovery, the compiled-output patcher (`add_kernel_test_checking`),
module-name derivation (`get_module_name` / `is_upper_name`) and runner
source generation — together with theorems checking the specified
properties.  The character classes of the embedded regular expressions
are restricted to their ASCII fragments, which covers every input the
code applies them to (compiler-generated JavaScript and Elm file names).
-/

/-- Strings are modelled as lists of characters. -/
abbrev Str := List Char

deriving instance DecidableEq for Except

/-- Number of positions of `s` at which `pat` occurs as a prefix of the
corresponding suffix (counts every occurrence, including overlapping
ones). -/
def countOccur (pat : Str) : Str → Nat
  | [] => 0
  | c :: cs => (if pat.isPrefixOf (c :: cs) then 1 else 0) + countOccur pat cs

/-- Join a list of strings with a separator (Rust `Vec::join`). -/
def joinWith (sep : Str) : List Str → Str
  | [] => []
  | [x] => x
  | x :: xs => x ++ sep ++ joinWith sep xs

/-! ### Exit-code propagation (src/run.rs:300-319) -/

/-- Exit status of a child process; `code` is `none` when no exit code is
available (the process was terminated by a signal).  Mirrors
`std::process::ExitStatus::code`. -/
structure ExitStatus where
  code : Option Int
deriving DecidableEq

/-- Result of `Child::try_wait` as matched by `wait_child`. -/
inductive TryWaitResult where
  | okSome (status : ExitStatus)
  | okNone
  | err
deriving DecidableEq

/-- Result of `Child::wait` as matched by `wait_child`. -/
inductive WaitResult where
  | ok (status : ExitStatus)
  | err
deriving DecidableEq

/-- Embeds `wait_child` (src/run.rs:307-319): `try_wait` first, and if the
child has not yet been waited on, block in `wait`; any failure yields
`none`. -/
def wait_child (tw : TryWaitResult) (w : WaitResult) : Option Int :=
  match tw with
  | .okSome status => status.code
  | .okNone =>
    match w with
    | .ok status => status.code
    | .err => none
  | .err => none

/-- Embeds the tail of `main` at the supervisor stage (src/run.rs:300-303):
`std::process::exit(exit_code.unwrap_or(1))`. -/
def supervisorExit (tw : TryWaitResult) (w : WaitResult) : Int :=
  (wait_child tw w).getD 1

/-! ### Pipeline front end: options, reporter validation, discovery
(src/run.rs:37-90) -/

/-- CLI options (src/run.rs:15-24). -/
structure Options where
  help : Bool
  version : Bool
  compiler : String
  seed : Nat
  fuzz : Nat
  workers : Nat
  report : String
  files : List String

/-- Abstract filesystem/OS environment of the discovery stage:
`projectRoot` stands for `utils::elm_project_root`, `glob` for
`glob::glob` (an `error` is a malformed pattern; the entries are `Ok`
paths or `Err` iteration errors), `canon` for `Path::canonicalize`. -/
structure Env where
  projectRoot : Option String
  glob : String → Except Unit (List (Except Unit String))
  canon : String → Option String

/-- Observable side effects of the pipeline front end. -/
inductive Event where
  | print (msg : String)
  | printHelp
  | spawn (prog : String)
deriving DecidableEq

/-- How the embedded `run::main` control flow ends. -/
inductive MainOutcome where
  | earlyReturn
  | panicked (msg : String)
  | laterStages (reporter : String) (modulePaths : List String)
deriving DecidableEq

/-- Embeds the reporter validation match (src/run.rs:52-61). -/
def validateReporter (r : String) : Option String :=
  if r = "console" then some "console"
  else if r = "json" then some "json"
  else if r = "junit" then some "junit"
  else none

/-- Embeds the choice of glob patterns (src/run.rs:64-72): default
`tests/` globs when no files are given, otherwise the given file
arguments themselves. -/
def moduleGlobs (root : String) (files : List String) : List String :=
  if files.isEmpty then
    [root ++ "/tests/*.elm", root ++ "/tests/**/*.elm"]
  else files

/-- Effectful map that stops at the first error, mirroring a sequential
Rust iterator whose closure panics. -/
def mapE (f : α → Except ε β) : List α → Except ε (List β)
  | [] => .ok []
  | x :: xs => do
    let y ← f x
    let ys ← mapE f xs
    pure (y :: ys)

/-- Embeds the expansion of one glob pattern (src/run.rs:78-88): a
pattern error panics, `Err` iteration entries are dropped by
`filter_map(|x| x.ok())`, and every surviving path is canonicalized,
panicking when canonicalization fails. -/
def expandPattern (env : Env) (pat : String) : Except String (List String) :=
  match env.glob pat with
  | .error _ => .error ("Failed to read glob pattern " ++ pat)
  | .ok entries =>
    mapE
      (fun p =>
        match env.canon p with
        | some c => Except.ok c
        | none => Except.error ("Error in canonicalize of " ++ p))
      (entries.filterMap (fun e => e.toOption))

/-- Insert into a duplicate-free accumulator (one step of collecting into
a `HashSet`). -/
def insertU (xs : List String) (x : String) : List String :=
  if x ∈ xs then xs else x :: xs

/-- Collect into a set of unique values (the `HashSet` collect of
src/run.rs:75-90); a hash set has no meaningful order, the model keeps
the members as a duplicate-free list. -/
def dedupL (l : List String) : List String := l.foldl insertU []

/-- Embeds the whole `module_paths` computation (src/run.rs:75-90). -/
def computeModulePaths (env : Env) (globs : List String) :
    Except String (List String) := do
  let expanded ← mapE (expandPattern env) globs
  pure (dedupL expanded.flatten)

/-- Modelled from the spec: the process exit code produced by the CLI
wrapper once `run::main` returns early from the reporter-validation
abort.  The wrapper (`main.rs`) is not part of `src/`; the spec requires
this abort to exit with a non-zero code. -/
def abortExitCode : Nat := 1

/-- Embeds the control flow of `run::main` (src/run.rs:37-90) through
test discovery; the later pipeline stages are kept as their subprocess
spawn skeleton (elm-json, three compiler invocations, node), which
suffices to observe that no subprocess is spawned before reporter
validation. -/
def mainTrace (env : Env) (opts : Options) : List Event × MainOutcome :=
  if opts.help then ([.printHelp], .earlyReturn)
  else if opts.version then ([.print "version"], .earlyReturn)
  else
    match env.projectRoot with
    | none => ([], .panicked "no elm.json project root")
    | some root =>
      match validateReporter opts.report with
      | none =>
        ([.print ("Wrong --report value: " ++ opts.report), .printHelp],
          .earlyReturn)
      | some reporter =>
        match computeModulePaths env (moduleGlobs root opts.files) with
        | .error msg => ([], .panicked msg)
        | .ok paths =>
          ([.spawn "elm-json", .spawn opts.compiler, .spawn opts.compiler,
            .spawn opts.compiler, .spawn "node"],
            .laterStages reporter paths)

/-! ### Compiled-output patcher (src/run.rs:355-375)

The two regular expressions `TEST_VARIANT_DEFINITION` and
`CHECK_DEFINITION` are hand-compiled into deterministic matchers over
`Str`.  Both patterns are anchored at line starts (`(?m)^`); every
greedy character-class repetition in them is followed by a character
outside the class, so maximal munch coincides with the backtracking
semantics of the regex crate, and the single optional group
`(?:\w+\(\s*)?` is handled by trying the with-group branch first. -/

/-- ASCII fragment of the regex class `\s`. -/
def isSpaceCh (c : Char) : Bool :=
  c == ' ' || c == '\t' || c == '\n' || c == '\r' ||
    c == Char.ofNat 11 || c == Char.ofNat 12

/-- ASCII fragment of the regex class `\w`. -/
def isWordCh (c : Char) : Bool := c.isAlphanum || c == '_'

/-- Match a literal string, returning the remaining input. -/
def expectS : Str → Str → Option Str
  | [], l => some l
  | _ :: _, [] => none
  | p :: ps, c :: cs => if c = p then expectS ps cs else none

/-- Match one-or-more characters of a class, greedily (`class+`). -/
def cls1 (f : Char → Bool) : Str → Option Str
  | [] => none
  | c :: cs => if f c then some (cs.dropWhile f) else none

/-- The variant-name alternation
`(?:ElmTestVariant__\w+|UnitTest|FuzzTest|Labeled|Skipped|Only|Batch)`. -/
def matchVariantName (l : Str) : Option Str :=
  match expectS "ElmTestVariant__".data l with
  | some l1 => cls1 isWordCh l1
  | none =>
    match expectS "UnitTest".data l with
    | some r => some r
    | none =>
      match expectS "FuzzTest".data l with
      | some r => some r
      | none =>
        match expectS "Labeled".data l with
        | some r => some r
        | none =>
          match expectS "Skipped".data l with
          | some r => some r
          | none =>
            match expectS "Only".data l with
            | some r => some r
            | none => expectS "Batch".data l

/-- The function-literal tail `function\s*\([\w, ]*\)\s*\{\s*return\s*\{`. -/
def matchFnBody (l : Str) : Option Str := do
  let l ← expectS "function".data l
  let l := l.dropWhile isSpaceCh
  let l ← expectS "(".data l
  let l := l.dropWhile (fun c => isWordCh c || c == ',' || c == ' ')
  let l ← expectS ")".data l
  let l := l.dropWhile isSpaceCh
  let l ← expectS "\x7b".data l
  let l := l.dropWhile isSpaceCh
  let l ← expectS "return".data l
  let l := l.dropWhile isSpaceCh
  expectS "\x7b".data l

/-- The optional wrapper group `(?:\w+\(\s*)?` followed by the function
literal: the with-group branch. -/
def matchVariantGroup (l : Str) : Option Str := do
  let l2 ← cls1 isWordCh l
  let l2 ← expectS "(".data l2
  let l2 := l2.dropWhile isSpaceCh
  matchFnBody l2

/-- The whole `TEST_VARIANT_DEFINITION` pattern at the current position,
returning the input remaining after the match; the greedy optional group
is tried with its body first and dropped on failure. -/
def matchVariantRest (l : Str) : Option Str := do
  let l ← expectS "var".data l
  let l ← cls1 isSpaceCh l
  let l ← expectS "$elm_explorations$test$Test$Internal$".data l
  let l ← matchVariantName l
  let l := l.dropWhile isSpaceCh
  let l ← expectS "=".data l
  let l := l.dropWhile isSpaceCh
  match matchVariantGroup l with
  | some r => some r
  | none => matchFnBody l

/-- `TEST_VARIANT_DEFINITION` split into (matched text, rest). -/
def matchVariantSplit (l : Str) : Option (Str × Str) :=
  match matchVariantRest l with
  | some r => some (l.take (l.length - r.length), r)
  | none => none

/-- The text appended to each matched constructor definition
(`$0 __elmTestSymbol: __elmTestSymbol,` minus the `$0` part). -/
def tagStr : Str := " __elmTestSymbol: __elmTestSymbol,".data

/-- Line-start-anchored scan of `Regex::replace_all` with
`TEST_VARIANT_DEFINITION`: every match is kept and `tagStr` appended,
and the scan continues after the match.  The fuel dominates the input
length, so it never runs out on `replaceAllVariant`. -/
def goVariant : Nat → Bool → Str → Str
  | 0, _, l => l
  | _ + 1, _, [] => []
  | fuel + 1, atStart, c :: cs =>
    if atStart then
      match matchVariantSplit (c :: cs) with
      | some (m, r) => m ++ tagStr ++ goVariant fuel (m.getLast? == some '\n') r
      | none => c :: goVariant fuel (c == '\n') cs
    else c :: goVariant fuel (c == '\n') cs

/-- Same scan as `goVariant`, only reporting whether any match exists. -/
def goVariantHas : Nat → Bool → Str → Bool
  | 0, _, _ => false
  | _ + 1, _, [] => false
  | fuel + 1, atStart, c :: cs =>
    if atStart then
      match matchVariantSplit (c :: cs) with
      | some _ => true
      | none => goVariantHas fuel (c == '\n') cs
    else goVariantHas fuel (c == '\n') cs

def replaceAllVariant (s : Str) : Str := goVariant s.length true s

/-- Group 1 of `CHECK_DEFINITION`:
`(var\s+\$author\$project\$Runner\$check)`. -/
def matchCheckG1 (l : Str) : Option Str := do
  let l ← expectS "var".data l
  let l ← cls1 isSpaceCh l
  expectS "$author$project$Runner$check".data l

/-- End-of-line test for the multiline `$` anchor. -/
def lineEndAt : Str → Bool
  | [] => true
  | c :: _ => c == '\n'

/-- The final `;?$` of `CHECK_DEFINITION`: the greedy optional `;` is
taken when the line ends after it; otherwise the line must end here
(when the head is `;` but no line end follows it, the backtracked
no-semicolon branch fails too, since `;` is not a line end). -/
def semiLineEnd (l : Str) : Option Str :=
  match l with
  | [] => some []
  | c :: rest =>
    if c == ';' && lineEndAt rest then some rest
    else if lineEndAt (c :: rest) then some (c :: rest) else none

/-- Rest of `CHECK_DEFINITION` after group 1:
`\s*=\s*\$author\$project\$Runner\$checkHelperReplaceMe___;?$`. -/
def checkAfterG1 (l : Str) : Option Str := do
  let l1 := l.dropWhile isSpaceCh
  let l2 ← expectS "=".data l1
  let l3 := l2.dropWhile isSpaceCh
  let l4 ← expectS "$author$project$Runner$checkHelperReplaceMe___".data l3
  semiLineEnd l4

/-- `CHECK_DEFINITION` split into (group 1, matched text, rest). -/
def matchCheckSplit (l : Str) : Option (Str × Str × Str) :=
  match matchCheckG1 l with
  | none => none
  | some l1 =>
    match checkAfterG1 l1 with
    | none => none
    | some r =>
      some (l.take (l.length - l1.length), l.take (l.length - r.length), r)

/-- The replacement of `Regex::replace` on `CHECK_DEFINITION`, after the
`$1` reference (`$$` unescapes to `$`). -/
def checkReplacementTail : Str :=
  (" = value => value && value.__elmTestSymbol === __elmTestSymbol ? $elm$core$Maybe$Just(value) : $elm$core$Maybe$Nothing;").data

/-- Line-start-anchored scan of `Regex::replace` with `CHECK_DEFINITION`:
only the first match is replaced, the rest of the input is copied
verbatim. -/
def goCheck : Nat → Bool → Str → Str
  | 0, _, l => l
  | _ + 1, _, [] => []
  | fuel + 1, atStart, c :: cs =>
    if atStart then
      match matchCheckSplit (c :: cs) with
      | some (g1, _, r) => g1 ++ checkReplacementTail ++ r
      | none => c :: goCheck fuel (c == '\n') cs
    else c :: goCheck fuel (c == '\n') cs

/-- Same scan as `goCheck`, only reporting whether any match exists. -/
def goCheckHas : Nat → Bool → Str → Bool
  | 0, _, _ => false
  | _ + 1, _, [] => false
  | fuel + 1, atStart, c :: cs =>
    if atStart then
      match matchCheckSplit (c :: cs) with
      | some _ => true
      | none => goCheckHas fuel (c == '\n') cs
    else goCheckHas fuel (c == '\n') cs

def replaceCheck (s : Str) : Str := goCheck s.length true s

/-- The token-allocation line prepended by the patch. -/
def allocLine : Str :=
  "const __elmTestSymbol = Symbol(\x27elmTestSymbol\x27);".data

/-- Embeds `add_kernel_test_checking` (src/run.rs:355-375): tag every
test-variant constructor definition, replace the first (and only the
first) placeholder `check` definition, then prepend the token
allocation line. -/
def add_kernel_test_checking (elm_js : Str) : Str :=
  allocLine ++ '\n' :: replaceCheck (replaceAllVariant elm_js)

/-! ### Module name derivation (src/run.rs:377-425) -/

/-- A filesystem path as its list of normal components (the only
component kind `get_module_name` accepts). -/
abbrev FsPath := List Str

/-- Embeds `s.replace(".elm", "")` (src/run.rs:410): remove every
non-overlapping occurrence of `.elm`, scanning left to right. -/
def removeElm : Str → Str
  | '.' :: 'e' :: 'l' :: 'm' :: rest => removeElm rest
  | c :: cs => c :: removeElm cs
  | [] => []

/-- Embeds `is_upper_name` (src/run.rs:420-425), i.e. the regex
`^\p{Lu}[_\d\p{L}]*$` restricted to its ASCII fragment. -/
def is_upper_name (s : Str) : Bool :=
  match s with
  | [] => false
  | c :: rest => c.isUpper && rest.all (fun d => d == '_' || d.isDigit || d.isAlpha)

/-- `Vec::join(".")` on the module name parts. -/
def joinDots : List Str → Str
  | [] => []
  | [p] => p
  | p :: ps => p ++ '.' :: joinDots ps

/-- Split a dotted name back into its dot-separated segments. -/
def splitDots : Str → List Str
  | [] => [[]]
  | c :: rest =>
    if c = '.' then [] :: splitDots rest
    else
      match splitDots rest with
      | [] => [[c]]
      | s :: ss => (c :: s) :: ss

/-- The panics and failed assertions of `get_module_name`. -/
inductive ModuleError where
  | noMatch
  | ambiguous
  | badName
  | emptyName
deriving DecidableEq

/-- Embeds `get_module_name` (src/run.rs:377-418): the file must start
with exactly one of the source directories (none panics "matches no
source directory", two or more panic "2+ matching source dirs"); the
root-relative components have `.elm` removed everywhere, are asserted to
be uppercase-initial names and non-empty, and are joined with dots. -/
def get_module_name (source_dirs : List FsPath) (test_file : FsPath) :
    Except ModuleError Str :=
  match source_dirs.filter (fun d => d.isPrefixOf test_file) with
  | [] => .error .noMatch
  | d :: extra =>
    if extra.isEmpty then
      if ((test_file.drop d.length).map removeElm).all is_upper_name then
        if ((test_file.drop d.length).map removeElm).isEmpty then
          .error .emptyName
        else .ok (joinDots ((test_file.drop d.length).map removeElm))
      else .error .badName
    else .error .ambiguous

/-! ### Runner source generation (src/run.rs:189-222) -/

/-- One module found by the parser collaborator: its file path and its
exposed test identifiers. -/
structure TestModule where
  path : FsPath
  tests : List Str

/-- Rust `str::trim` (ASCII whitespace fragment). -/
def trimStr (s : Str) : Str :=
  ((s.dropWhile isSpaceCh).reverse.dropWhile isSpaceCh).reverse

/-- One check expression `check <Module>.<test>` (src/run.rs:196). -/
def mkCheck (name t : Str) : Str := "check ".data ++ name ++ '.' :: t

/-- The per-module test-group record (src/run.rs:198-209): the template
filled with the module name and the joined check expressions, then
trimmed. -/
def mkRecord (name : Str) (checks : List Str) : Str :=
  trimStr ("\n      \x7b module_ = \"".data ++ name
    ++ "\"\n      , maybeTests =\n            [ ".data
    ++ joinWith "\n            , ".data checks
    ++ "\n            ]\n      \x7d".data)

/-- One module's contribution to the runner source (src/run.rs:191-211):
the import line and the test-group record. -/
def runnerEntry (dirs : List FsPath) (m : TestModule) :
    Except ModuleError (Str × Str) := do
  let name ← get_module_name dirs m.path
  pure ("import ".data ++ name, mkRecord name (m.tests.map (mkCheck name)))

/-- The unzipped `(runner_imports, maybe_runner_tests)` pair
(src/run.rs:189-212). -/
def runnerParts (dirs : List FsPath) (mods : List TestModule) :
    Except ModuleError (List Str × List Str) := do
  let entries ← mapE (runnerEntry dirs) mods
  pure (entries.map Prod.fst, entries.map Prod.snd)

/-! ### Concrete inputs used by witnesses and counterexamples -/

/-- A compiled-output snippet containing two matching test-variant
constructor definitions, one plain and one wrapped in `F2(...)`. -/
def exDouble : Str :=
  ("var $elm_explorations$test$Test$Internal$UnitTest = function (a) \x7b\n\treturn \x7b$: \x27UnitTest\x27, a: a\x7d;\n\x7d;\nvar $elm_explorations$test$Test$Internal$Labeled = F2(function (a, b) \x7b\n\treturn \x7b$: \x27Labeled\x27, a: a, b: b\x7d;\n\x7d);\n").data

/-- The first `TEST_VARIANT_DEFINITION` match inside `exDouble`. -/
def exM0 : Str :=
  ("var $elm_explorations$test$Test$Internal$UnitTest = function (a) \x7b\n\treturn \x7b").data

/-- What follows `exM0` in `exDouble`. -/
def exR0 : Str :=
  ("$: \x27UnitTest\x27, a: a\x7d;\n\x7d;\nvar $elm_explorations$test$Test$Internal$Labeled = F2(function (a, b) \x7b\n\treturn \x7b$: \x27Labeled\x27, a: a, b: b\x7d;\n\x7d);\n").data

/-- A snippet with no variant and no check-placeholder match. -/
def exPlain : Str := "var x = 1;\nvar y = x;\n".data

/-- Discovery environment with an expandable wildcard, overlapping
globs, a pattern with no matches and a path that fails
canonicalization. -/
def envW : Env where
  projectRoot := some "/proj"
  glob := fun pat =>
    if pat = "tests/E*.elm" then
      .ok [.ok "/proj/tests/EA.elm", .ok "/proj/tests/EB.elm"]
    else if pat = "g1" then .ok [.ok "/a", .ok "/b"]
    else if pat = "g2" then .ok [.ok "/b"]
    else if pat = "bad" then .ok [.ok "/dangling"]
    else .ok []
  canon := fun p => if p = "/dangling" then none else some p

/-- Options carrying the invalid reporter value `"xml"`. -/
def optsXml : Options :=
  { help := false, version := false, compiler := "elm", seed := 0,
    fuzz := 100, workers := 1, report := "xml", files := [] }

/-- The record generated for one module `ExampleTest` with two tests. -/
def exampleRecord : Str :=
  ("\x7b module_ = \"ExampleTest\"\n      , maybeTests =\n            [ check ExampleTest.test1\n            , check ExampleTest.test2\n            ]\n      \x7d").data

/-! ## Theorems -/

/-- Claim C1: when the pipeline reaches the supervisor stage, the
process exits with the supervisor child's exit code whenever one is
obtainable, and with exit code 1 when the wait fails or the exit status
carries no code. -/
theorem c1_exit_propagation (tw : TryWaitResult) (w : WaitResult) :
    (∀ c : Int, wait_child tw w = some c → supervisorExit tw w = c) ∧
    (wait_child tw w = none → supervisorExit tw w = 1) := by
  constructor
  · intro c hc; simp [supervisorExit, hc]
  · intro hn; simp [supervisorExit, hn]

/-- Witness for C1: a child exit code 7 is propagated, and a failed wait
yields exit code 1. -/
theorem c1_exit_propagation_witness :
    supervisorExit (.okSome ⟨some 7⟩) .err = 7 ∧
    supervisorExit .err .err = 1 :=
  ⟨(c1_exit_propagation _ _).1 7 rfl, (c1_exit_propagation _ _).2 rfl⟩

/-- Claim C2: for every reporter value outside console/json/junit, the
program prints the bad value (followed by the help text) and returns
before any subprocess spawn; the spec-modelled CLI wrapper exit code of
this abort is non-zero. -/
theorem c2_bad_reporter (env : Env) (opts : Options) (root : String)
    (hh : opts.help = false) (hv : opts.version = false)
    (hr : env.projectRoot = some root)
    (hbad : opts.report ∉ (["console", "json", "junit"] : List String)) :
    mainTrace env opts =
      ([.print ("Wrong --report value: " ++ opts.report), .printHelp],
        .earlyReturn) ∧
    (∀ e ∈ (mainTrace env opts).1, ∀ prog, e ≠ Event.spawn prog) ∧
    abortExitCode ≠ 0 := by
  have h1 : opts.report ≠ "console" := by intro h; exact hbad (by simp [h])
  have h2 : opts.report ≠ "json" := by intro h; exact hbad (by simp [h])
  have h3 : opts.report ≠ "junit" := by intro h; exact hbad (by simp [h])
  have hval : validateReporter opts.report = none := by
    simp [validateReporter, h1, h2, h3]
  have htr : mainTrace env opts =
      ([.print ("Wrong --report value: " ++ opts.report), .printHelp],
        .earlyReturn) := by
    simp [mainTrace, hh, hv, hr, hval]
  refine ⟨htr, ?_, by simp [abortExitCode]⟩
  intro e he prog
  rw [htr] at he
  simp only [List.mem_cons, List.mem_singleton, List.not_mem_nil] at he
  rcases he with rfl | rfl | he <;> simp_all

/-- Witness for C2 at the concrete reporter value `"xml"`. -/
theorem c2_bad_reporter_witness :
    mainTrace envW optsXml =
      ([.print ("Wrong --report value: " ++ optsXml.report), .printHelp],
        .earlyReturn) ∧
    (∀ e ∈ (mainTrace envW optsXml).1, ∀ prog, e ≠ Event.spawn prog) ∧
    abortExitCode ≠ 0 :=
  c2_bad_reporter envW optsXml "/proj" rfl rfl rfl (by decide)

/-- Helper: folding `insertU` preserves duplicate-freeness. -/
theorem foldl_insertU_nodup (l : List String) :
    ∀ acc : List String, acc.Nodup → (l.foldl insertU acc).Nodup := by
  induction l with
  | nil => intro acc h; simpa using h
  | cons x xs ih =>
    intro acc h
    rw [List.foldl_cons]
    apply ih
    unfold insertU
    by_cases hx : x ∈ acc
    · simpa [hx] using h
    · rw [if_neg hx]
      exact List.nodup_cons.mpr ⟨hx, h⟩

/-- Claim C9: for every environment and every set of glob patterns
(overlapping expansions included), the discovered set of canonical test
file paths contains no duplicates. -/
theorem c9_no_duplicates (env : Env) (globs : List String)
    (ps : List String) (h : computeModulePaths env globs = .ok ps) :
    ps.Nodup := by
  unfold computeModulePaths at h
  cases hm : mapE (expandPattern env) globs with
  | error e => rw [hm] at h; simp [Bind.bind, Except.bind] at h
  | ok ls =>
    rw [hm] at h
    simp only [Bind.bind, Except.bind, Pure.pure, Except.pure, Except.ok.injEq] at h
    rw [← h]
    exact foldl_insertU_nodup _ _ List.nodup_nil

/-- Witness for C9: two overlapping glob expansions still produce a
duplicate-free set. -/
theorem c9_no_duplicates_witness :
    computeModulePaths envW ["g1", "g2"] = .ok ["/b", "/a"] ∧
    (["/b", "/a"] : List String).Nodup :=
  ⟨by decide, c9_no_duplicates envW ["g1", "g2"] ["/b", "/a"] (by decide)⟩

/-- Claim C7 counterexample: with an explicit (non-empty) file list the
code still performs glob expansion — a wildcard argument expands to two
canonical paths — and an explicitly supplied file that matches nothing
(for instance a nonexistent file) is silently dropped instead of being
fatal. -/
theorem c7_counterexample :
    computeModulePaths envW (moduleGlobs "/proj" ["tests/E*.elm"]) =
      .ok ["/proj/tests/EB.elm", "/proj/tests/EA.elm"] ∧
    computeModulePaths envW (moduleGlobs "/proj" ["missing.elm"]) =
      .ok [] := by decide

/-- Claim C7 (amended): an explicit file list is passed through glob
expansion exactly like the default patterns (globbing is not bypassed);
an explicit file matching nothing yields no entries and is silently
dropped; any glob-matched path that fails canonicalization is a fatal
error; a malformed glob pattern is fatal. -/
theorem c7_amended (env : Env) (root f p : String) (files : List String)
    (hne : files ≠ []) :
    moduleGlobs root files = files ∧
    (env.glob f = .ok [] → computeModulePaths env [f] = .ok []) ∧
    (env.glob f = .ok [.ok p] → env.canon p = none →
      computeModulePaths env [f] =
        .error ("Error in canonicalize of " ++ p)) ∧
    (env.glob f = .error () → computeModulePaths env [f] =
      .error ("Failed to read glob pattern " ++ f)) := by
  refine ⟨by simp [moduleGlobs, hne], ?_, ?_, ?_⟩
  · intro hg
    simp [computeModulePaths, mapE, expandPattern, hg, dedupL,
      Bind.bind, Except.bind, Pure.pure, Except.pure]
  · intro hg hc
    simp [computeModulePaths, mapE, expandPattern, hg, hc,
      Bind.bind, Except.bind, Pure.pure, Except.pure]
  · intro hg
    simp [computeModulePaths, mapE, expandPattern, hg,
      Bind.bind, Except.bind, Pure.pure, Except.pure]

/-- Witness for C7 (amended) at a concrete environment: a nonexistent
explicit file is dropped, and a dangling path fails canonicalization
fatally. -/
theorem c7_amended_witness :
    moduleGlobs "/proj" ["bad"] = ["bad"] ∧
    computeModulePaths envW ["missing.elm"] = .ok [] ∧
    computeModulePaths envW ["bad"] =
      .error ("Error in canonicalize of " ++ "/dangling") := by
  have h1 := c7_amended envW "/proj" "missing.elm" "/dangling" ["bad"]
    (by decide)
  have h2 := c7_amended envW "/proj" "bad" "/dangling" ["bad"] (by decide)
  exact ⟨h1.1, h1.2.1 (by decide), h2.2.2.1 (by decide) (by decide)⟩

/-- Helper: destructure a successful `Option` bind. -/
theorem optStep {α β : Type} {o : Option α} {f : α → Option β} {b : β}
    (h : o >>= f = some b) : ∃ a, o = some a ∧ f a = some b := by
  cases o with
  | none => simp at h
  | some a => exact ⟨a, rfl, h⟩

/-- Helper: a successful literal match leaves a suffix of the input. -/
theorem expectS_suffix : ∀ (p l r : Str), expectS p l = some r → r <:+ l := by
  intro p
  induction p with
  | nil =>
    intro l r h
    simp only [expectS, Option.some.injEq] at h
    subst h
    exact List.suffix_rfl
  | cons a as ih =>
    intro l r h
    cases l with
    | nil => simp [expectS] at h
    | cons c cs =>
      unfold expectS at h
      by_cases hc : c = a
      · rw [if_pos hc] at h
        exact (ih cs r h).trans (List.suffix_cons c cs)
      · rw [if_neg hc] at h; cases h

/-- Helper: a successful literal match consumes the literal's length. -/
theorem expectS_length : ∀ (p l r : Str), expectS p l = some r →
    l.length = p.length + r.length := by
  intro p
  induction p with
  | nil =>
    intro l r h
    simp only [expectS, Option.some.injEq] at h
    subst h
    simp
  | cons a as ih =>
    intro l r h
    cases l with
    | nil => simp [expectS] at h
    | cons c cs =>
      unfold expectS at h
      by_cases hc : c = a
      · rw [if_pos hc] at h
        have := ih cs r h
        simp [this]
        omega
      · rw [if_neg hc] at h; cases h

/-- Helper: a successful `class+` match leaves a suffix of the input. -/
theorem cls1_suffix (f : Char → Bool) (l r : Str) (h : cls1 f l = some r) :
    r <:+ l := by
  cases l with
  | nil => simp [cls1] at h
  | cons c cs =>
    simp only [cls1] at h
    by_cases hc : f c
    · rw [if_pos hc] at h
      simp only [Option.some.injEq] at h
      subst h
      exact (List.dropWhile_suffix f).trans (List.suffix_cons c cs)
    · rw [if_neg hc] at h; cases h

/-- Helper: the variant-name alternation leaves a suffix of the input. -/
theorem matchVariantName_suffix (l r : Str)
    (h : matchVariantName l = some r) : r <:+ l := by
  unfold matchVariantName at h
  cases h1 : expectS "ElmTestVariant__".data l with
  | some l1 =>
    rw [h1] at h
    exact (cls1_suffix _ _ _ h).trans (expectS_suffix _ _ _ h1)
  | none =>
    rw [h1] at h
    cases h2 : expectS "UnitTest".data l with
    | some r2 =>
      rw [h2] at h
      simp only [Option.some.injEq] at h
      subst h
      exact expectS_suffix _ _ _ h2
    | none =>
      rw [h2] at h
      cases h3 : expectS "FuzzTest".data l with
      | some r3 =>
        rw [h3] at h
        simp only [Option.some.injEq] at h
        subst h
        exact expectS_suffix _ _ _ h3
      | none =>
        rw [h3] at h
        cases h4 : expectS "Labeled".data l with
        | some r4 =>
          rw [h4] at h
          simp only [Option.some.injEq] at h
          subst h
          exact expectS_suffix _ _ _ h4
        | none =>
          rw [h4] at h
          cases h5 : expectS "Skipped".data l with
          | some r5 =>
            rw [h5] at h
            simp only [Option.some.injEq] at h
            subst h
            exact expectS_suffix _ _ _ h5
          | none =>
            rw [h5] at h
            cases h6 : expectS "Only".data l with
            | some r6 =>
              rw [h6] at h
              simp only [Option.some.injEq] at h
              subst h
              exact expectS_suffix _ _ _ h6
            | none =>
              rw [h6] at h
              exact expectS_suffix _ _ _ h

/-- Helper: the function-literal tail matcher leaves a suffix. -/
theorem matchFnBody_suffix (l r : Str) (h : matchFnBody l = some r) :
    r <:+ l := by
  unfold matchFnBody at h
  obtain ⟨l1, h1, h⟩ := optStep h
  obtain ⟨l2, h2, h⟩ := optStep h
  obtain ⟨l3, h3, h⟩ := optStep h
  obtain ⟨l4, h4, h⟩ := optStep h
  obtain ⟨l5, h5, h⟩ := optStep h
  calc r <:+ l5.dropWhile isSpaceCh := expectS_suffix _ _ _ h
    _ <:+ l5 := List.dropWhile_suffix _
    _ <:+ l4.dropWhile isSpaceCh := expectS_suffix _ _ _ h5
    _ <:+ l4 := List.dropWhile_suffix _
    _ <:+ l3.dropWhile isSpaceCh := expectS_suffix _ _ _ h4
    _ <:+ l3 := List.dropWhile_suffix _
    _ <:+ l2.dropWhile (fun c => isWordCh c || c == ',' || c == ' ') :=
      expectS_suffix _ _ _ h3
    _ <:+ l2 := List.dropWhile_suffix _
    _ <:+ l1.dropWhile isSpaceCh := expectS_suffix _ _ _ h2
    _ <:+ l1 := List.dropWhile_suffix _
    _ <:+ l := expectS_suffix _ _ _ h1

/-- Helper: a successful `TEST_VARIANT_DEFINITION` match leaves a suffix
of the input and consumes at least the three characters of `var`. -/
theorem matchVariantRest_suffix_len (l r : Str)
    (h : matchVariantRest l = some r) : r <:+ l ∧ r.length + 3 ≤ l.length := by
  unfold matchVariantRest at h
  obtain ⟨l1, h1, h⟩ := optStep h
  obtain ⟨l2, h2, h⟩ := optStep h
  obtain ⟨l3, h3, h⟩ := optStep h
  obtain ⟨l4, h4, h⟩ := optStep h
  obtain ⟨l5, h5, h⟩ := optStep h
  have h' : (match matchVariantGroup (l5.dropWhile isSpaceCh) with
      | some rr => some rr
      | none => matchFnBody (l5.dropWhile isSpaceCh)) = some r := h
  have hsfx5 : r <:+ l5.dropWhile isSpaceCh := by
    cases hg : matchVariantGroup (l5.dropWhile isSpaceCh) with
    | some rg =>
      rw [hg] at h'
      simp only [Option.some.injEq] at h'
      subst h'
      unfold matchVariantGroup at hg
      obtain ⟨g1, hg1, hg'⟩ := optStep hg
      obtain ⟨g2, hg2, hg'⟩ := optStep hg'
      calc rg <:+ g2.dropWhile isSpaceCh := matchFnBody_suffix _ _ hg'
        _ <:+ g2 := List.dropWhile_suffix _
        _ <:+ g1 := expectS_suffix _ _ _ hg2
        _ <:+ l5.dropWhile isSpaceCh := cls1_suffix _ _ _ hg1
    | none =>
      rw [hg] at h'
      exact matchFnBody_suffix _ _ h'
  have hsfx1 : r <:+ l1 := by
    calc r <:+ l5.dropWhile isSpaceCh := hsfx5
      _ <:+ l5 := List.dropWhile_suffix _
      _ <:+ l4.dropWhile isSpaceCh := expectS_suffix _ _ _ h5
      _ <:+ l4 := List.dropWhile_suffix _
      _ <:+ l3 := matchVariantName_suffix _ _ h4
      _ <:+ l2 := expectS_suffix _ _ _ h3
      _ <:+ l1 := cls1_suffix _ _ _ h2
  have hlen : l.length = 3 + l1.length := expectS_length _ _ _ h1
  have hle : r.length ≤ l1.length := hsfx1.length_le
  exact ⟨hsfx1.trans (expectS_suffix _ _ _ h1), by omega⟩

/-- Helper: group 1 of `CHECK_DEFINITION` leaves a suffix and consumes
at least the three characters of `var`. -/
theorem matchCheckG1_suffix_len (l r : Str)
    (h : matchCheckG1 l = some r) : r <:+ l ∧ r.length + 3 ≤ l.length := by
  unfold matchCheckG1 at h
  obtain ⟨l1, h1, h⟩ := optStep h
  obtain ⟨l2, h2, h⟩ := optStep h
  have hsfx1 : r <:+ l1 :=
    (expectS_suffix _ _ _ h).trans (cls1_suffix _ _ _ h2)
  have hlen : l.length = 3 + l1.length := expectS_length _ _ _ h1
  have hle : r.length ≤ l1.length := hsfx1.length_le
  exact ⟨hsfx1.trans (expectS_suffix _ _ _ h1), by omega⟩

/-- Helper: the `;?$` step leaves a suffix of its input. -/
theorem semiLineEnd_suffix (l r : Str) (h : semiLineEnd l = some r) :
    r <:+ l := by
  cases l with
  | nil =>
    simp only [semiLineEnd, Option.some.injEq] at h
    subst h
    exact List.suffix_rfl
  | cons c rest =>
    simp only [semiLineEnd] at h
    by_cases h1 : (c == ';' && lineEndAt rest) = true
    · rw [if_pos h1] at h
      simp only [Option.some.injEq] at h
      subst h
      exact List.suffix_cons _ _
    · rw [if_neg h1] at h
      by_cases h2 : lineEndAt (c :: rest) = true
      · rw [if_pos h2] at h
        simp only [Option.some.injEq] at h
        subst h
        exact List.suffix_rfl
      · rw [if_neg h2] at h; cases h

/-- Helper: the post-group part of `CHECK_DEFINITION` leaves a suffix. -/
theorem checkAfterG1_suffix (l r : Str) (h : checkAfterG1 l = some r) :
    r <:+ l := by
  unfold checkAfterG1 at h
  obtain ⟨l2, h2, h⟩ := optStep h
  obtain ⟨l4, h4, h⟩ := optStep h
  calc r <:+ l4 := semiLineEnd_suffix _ _ h
    _ <:+ l2.dropWhile isSpaceCh := expectS_suffix _ _ _ h4
    _ <:+ l2 := List.dropWhile_suffix _
    _ <:+ l.dropWhile isSpaceCh := expectS_suffix _ _ _ h2
    _ <:+ l := List.dropWhile_suffix _

/-- Helper: a suffix decomposes the list around `take`. -/
theorem suffix_take_split {l r : Str} (h : r <:+ l) :
    l = l.take (l.length - r.length) ++ r := by
  obtain ⟨m, hm⟩ := h
  subst hm
  have hlen : (m ++ r).length - r.length = m.length := by simp
  rw [hlen, List.take_left]

/-- Helper: a successful variant split decomposes the input, with a
non-empty matched part. -/
theorem matchVariantSplit_eq {l m r : Str}
    (h : matchVariantSplit l = some (m, r)) : l = m ++ r ∧ m ≠ [] := by
  unfold matchVariantSplit at h
  cases hm : matchVariantRest l with
  | none => rw [hm] at h; cases h
  | some r' =>
    rw [hm] at h
    simp only [Option.some.injEq, Prod.mk.injEq] at h
    obtain ⟨hm1, hm2⟩ := h
    subst hm2
    subst hm1
    obtain ⟨hsfx, hlen⟩ := matchVariantRest_suffix_len l r' hm
    refine ⟨suffix_take_split hsfx, ?_⟩
    intro hnil
    have hlen2 : (l.take (l.length - r'.length)).length = 0 := by
      rw [hnil]; rfl
    rw [List.length_take, Nat.min_eq_left (Nat.sub_le _ _)] at hlen2
    omega

/-- Helper: a successful check split decomposes the input, with a
non-empty matched part. -/
theorem matchCheckSplit_eq {l g1 m r : Str}
    (h : matchCheckSplit l = some (g1, m, r)) : l = m ++ r ∧ m ≠ [] := by
  unfold matchCheckSplit at h
  cases h1 : matchCheckG1 l with
  | none => simp [h1] at h
  | some l1 =>
    rw [h1] at h
    cases h2 : checkAfterG1 l1 with
    | none => simp [h2] at h
    | some r' =>
      simp only [h2, Option.some.injEq, Prod.mk.injEq] at h
      obtain ⟨hg, hm, hr⟩ := h
      subst hr
      subst hm
      obtain ⟨hsfx1, hlen1⟩ := matchCheckG1_suffix_len l l1 h1
      have hsfx : r' <:+ l := (checkAfterG1_suffix _ _ h2).trans hsfx1
      have hle : r'.length ≤ l1.length :=
        (checkAfterG1_suffix _ _ h2).length_le
      refine ⟨suffix_take_split hsfx, ?_⟩
      intro hnil
      have hlen2 : (l.take (l.length - r'.length)).length = 0 := by
        rw [hnil]; rfl
      rw [List.length_take, Nat.min_eq_left (Nat.sub_le _ _)] at hlen2
      omega

/-- Helper: when the variant scan finds no match, the rewrite is the
identity. -/
theorem goVariant_no_match : ∀ (fuel : Nat) (st : Bool) (l : Str),
    goVariantHas fuel st l = false → goVariant fuel st l = l := by
  intro fuel
  induction fuel with
  | zero => intro st l _; rfl
  | succ n ih =>
    intro st l h
    cases l with
    | nil => rfl
    | cons c cs =>
      cases st with
      | false =>
        simp [goVariantHas] at h
        simp [goVariant]
        exact ih _ _ h
      | true =>
        cases hm : matchVariantSplit (c :: cs) with
        | some p => simp [goVariantHas, hm] at h
        | none =>
          simp [goVariantHas, hm] at h
          simp [goVariant, hm]
          exact ih _ _ h

/-- Helper: when the check scan finds no match, the rewrite is the
identity. -/
theorem goCheck_no_match : ∀ (fuel : Nat) (st : Bool) (l : Str),
    goCheckHas fuel st l = false → goCheck fuel st l = l := by
  intro fuel
  induction fuel with
  | zero => intro st l _; rfl
  | succ n ih =>
    intro st l h
    cases l with
    | nil => rfl
    | cons c cs =>
      cases st with
      | false =>
        simp [goCheckHas] at h
        simp [goCheck]
        exact ih _ _ h
      | true =>
        cases hm : matchCheckSplit (c :: cs) with
        | some p => simp [goCheckHas, hm] at h
        | none =>
          simp [goCheckHas, hm] at h
          simp [goCheck, hm]
          exact ih _ _ h

/-- Helper: the check rewrite either changes nothing or replaces exactly
the first match, copying everything after it verbatim. -/
theorem goCheck_first : ∀ (fuel : Nat) (st : Bool) (s : Str),
    goCheck fuel st s = s ∨
    ∃ p g1 m r, s = p ++ m ++ r ∧
      matchCheckSplit (m ++ r) = some (g1, m, r) ∧
      goCheck fuel st s = p ++ g1 ++ checkReplacementTail ++ r := by
  intro fuel
  induction fuel with
  | zero => intro st s; exact .inl rfl
  | succ n ih =>
    intro st s
    cases s with
    | nil => exact .inl rfl
    | cons c cs =>
      cases st with
      | false =>
        rcases ih (c == '\n') cs with hid | ⟨p, g1, m, r, hs, hm, hg⟩
        · exact .inl (by simp [goCheck, hid])
        · refine .inr ⟨c :: p, g1, m, r, by simp [hs], hm, ?_⟩
          simp [goCheck, hg]
      | true =>
        cases hms : matchCheckSplit (c :: cs) with
        | some t =>
          obtain ⟨g1, m, r⟩ := t
          have heq : c :: cs = m ++ r := (matchCheckSplit_eq hms).1
          refine .inr ⟨[], g1, m, r, by simpa using heq, ?_, ?_⟩
          · rw [← heq]; exact hms
          · simp [goCheck, hms]
        | none =>
          rcases ih (c == '\n') cs with hid | ⟨p, g1, m, r, hs, hm, hg⟩
          · exact .inl (by simp [goCheck, hms, hid])
          · refine .inr ⟨c :: p, g1, m, r, by simp [hs], hm, ?_⟩
            simp [goCheck, hms, hg]

/-- Helper: the variant scan, unlike the check one, continues scanning
after a match, so later matches are also rewritten. -/
theorem goVariant_continues (fuel : Nat) (m r : Str)
    (h : matchVariantSplit (m ++ r) = some (m, r)) :
    goVariant (fuel + 1) true (m ++ r) =
      m ++ tagStr ++ goVariant fuel (m.getLast? == some '\n') r := by
  obtain ⟨-, hne⟩ := matchVariantSplit_eq h
  cases hm : m with
  | nil => exact absurd hm hne
  | cons c m' =>
    subst hm
    simp only [List.cons_append] at h ⊢
    simp [goVariant, h]

set_option maxRecDepth 40000

/-- Claim C3 counterexample: the patching function is not idempotent
with respect to the token-allocation line — applying it twice changes
the output again and yields two copies of the allocation line. -/
theorem c3_counterexample :
    countOccur allocLine
      (add_kernel_test_checking (add_kernel_test_checking [])) = 2 ∧
    add_kernel_test_checking (add_kernel_test_checking []) ≠
      add_kernel_test_checking [] := by decide

/-- Claim C3 (amended): a single application of the patch to un-patched
compiler output prepends exactly one token-allocation line (only
re-application to already-patched text duplicates it), and the
constructor-tagging rewrite applies to every matching constructor
definition: on a text with two matching definitions both receive the
tag, and after rewriting one match the scan continues in the remaining
text instead of stopping. -/
theorem c3_alloc_once_tag_all :
    (countOccur allocLine exDouble = 0 ∧
     countOccur allocLine (add_kernel_test_checking exDouble) = 1 ∧
     countOccur tagStr exDouble = 0 ∧
     countOccur tagStr (add_kernel_test_checking exDouble) = 2) ∧
    (∀ (fuel : Nat) (m r : Str), matchVariantSplit (m ++ r) = some (m, r) →
      goVariant (fuel + 1) true (m ++ r) =
        m ++ tagStr ++ goVariant fuel (m.getLast? == some '\n') r) :=
  ⟨by decide, fun fuel m r h => goVariant_continues fuel m r h⟩

/-- Witness for C3 (amended): the continuation equation applied to the
first concrete match of `exDouble`. -/
theorem c3_alloc_once_tag_all_witness :
    matchVariantSplit (exM0 ++ exR0) = some (exM0, exR0) ∧
    goVariant (exR0.length + 1) true (exM0 ++ exR0) =
      exM0 ++ tagStr ++ goVariant exR0.length (exM0.getLast? == some '\n') exR0 :=
  ⟨by decide, c3_alloc_once_tag_all.2 exR0.length exM0 exR0 (by decide)⟩

/-- Claim C4: a patch pattern matching zero occurrences is a silent
no-op — the function is total (no error value) and the text passes
through unchanged apart from the always-prepended allocation line — and
the placeholder-function replacement rewrites only the first match,
copying everything after it (including any further match) verbatim. -/
theorem c4_noop_and_first_only (s : Str) :
    (goVariantHas s.length true s = false →
      goCheckHas s.length true s = false →
      add_kernel_test_checking s = allocLine ++ '\n' :: s) ∧
    (replaceCheck s = s ∨
      ∃ p g1 m r, s = p ++ m ++ r ∧
        matchCheckSplit (m ++ r) = some (g1, m, r) ∧
        replaceCheck s = p ++ g1 ++ checkReplacementTail ++ r) := by
  constructor
  · intro hv hc
    have h1 : replaceAllVariant s = s := goVariant_no_match _ _ _ hv
    have h2 : replaceCheck s = s := goCheck_no_match _ _ _ hc
    unfold add_kernel_test_checking
    rw [h1, h2]
  · exact goCheck_first s.length true s

/-- Witness for C4: on a snippet with no matching pattern the patch
only prepends the allocation line. -/
theorem c4_noop_and_first_only_witness :
    goVariantHas exPlain.length true exPlain = false ∧
    goCheckHas exPlain.length true exPlain = false ∧
    add_kernel_test_checking exPlain = allocLine ++ '\n' :: exPlain :=
  ⟨by decide, by decide,
    (c4_noop_and_first_only exPlain).1 (by decide) (by decide)⟩

/-- Helper: an uppercase-initial name is non-empty and contains no
dot. -/
theorem is_upper_name_no_dot (s : Str) (h : is_upper_name s = true) :
    s ≠ [] ∧ '.' ∉ s := by
  cases s with
  | nil => simp [is_upper_name] at h
  | cons c rest =>
    simp only [is_upper_name, Bool.and_eq_true] at h
    obtain ⟨hc, hrest⟩ := h
    refine ⟨by simp, ?_⟩
    intro hmem
    rcases List.mem_cons.mp hmem with heq | hmem
    · rw [← heq] at hc
      exact absurd hc (by decide)
    · rw [List.all_eq_true] at hrest
      exact absurd (hrest _ hmem) (by decide)

/-- Helper: splitting an undotted string gives the singleton. -/
theorem splitDots_no_dot (p : Str) (h : '.' ∉ p) : splitDots p = [p] := by
  induction p with
  | nil => rfl
  | cons c rest ih =>
    have hc : ¬c = '.' := by
      intro hcc
      exact h (by rw [hcc]; exact List.mem_cons_self _ _)
    have hrest : '.' ∉ rest := fun hm => h (List.mem_cons_of_mem _ hm)
    simp only [splitDots, if_neg hc, ih hrest]

/-- Helper: splitting past a leading undotted segment and a dot. -/
theorem splitDots_append (p t : Str) (h : '.' ∉ p) :
    splitDots (p ++ '.' :: t) = p :: splitDots t := by
  induction p with
  | nil => simp [splitDots]
  | cons c rest ih =>
    have hc : ¬c = '.' := by
      intro hcc
      exact h (by rw [hcc]; exact List.mem_cons_self _ _)
    have hrest : '.' ∉ rest := fun hm => h (List.mem_cons_of_mem _ hm)
    simp only [List.cons_append, splitDots, if_neg hc, List.append_eq,
      ih hrest]

/-- Helper: `splitDots` inverts `joinDots` on non-empty lists of
non-empty, undotted segments. -/
theorem splitDots_joinDots : ∀ (parts : List Str),
    parts ≠ [] → (∀ p ∈ parts, p ≠ [] ∧ '.' ∉ p) →
    splitDots (joinDots parts) = parts := by
  intro parts
  induction parts with
  | nil => intro h _; exact absurd rfl h
  | cons p ps ih =>
    intro _ hall
    cases ps with
    | nil =>
      simp only [joinDots]
      exact splitDots_no_dot p (hall p (by simp)).2
    | cons q qs =>
      have hjoin : joinDots (p :: q :: qs) = p ++ '.' :: joinDots (q :: qs) :=
        rfl
      rw [hjoin, splitDots_append _ _ (hall p (by simp)).2,
        ih (by simp) (fun x hx => hall x (List.mem_cons_of_mem _ hx))]

/-- Claim C5: module-name resolution fails with the no-import error when
the file is under none of the source roots, fails with the ambiguity
error when it is under two or more, and returns a name only when it is
under exactly one — it never silently picks a root. -/
theorem c5_root_matching (dirs : List FsPath) (file : FsPath) :
    ((∀ d ∈ dirs, d.isPrefixOf file = false) →
      get_module_name dirs file = .error .noMatch) ∧
    (2 ≤ (dirs.filter (fun d => d.isPrefixOf file)).length →
      get_module_name dirs file = .error .ambiguous) ∧
    (∀ name, get_module_name dirs file = .ok name →
      (dirs.filter (fun d => d.isPrefixOf file)).length = 1) := by
  refine ⟨?_, ?_, ?_⟩
  · intro hnone
    have hfil : dirs.filter (fun d => d.isPrefixOf file) = [] :=
      List.filter_eq_nil_iff.mpr (fun d hd => by simp [hnone d hd])
    unfold get_module_name
    rw [hfil]
  · intro h2
    unfold get_module_name
    cases hfil : dirs.filter (fun d => d.isPrefixOf file) with
    | nil => rw [hfil] at h2; simp at h2
    | cons d extra =>
      cases extra with
      | nil => rw [hfil] at h2; simp at h2
      | cons e es => simp
  · intro name h
    unfold get_module_name at h
    cases hfil : dirs.filter (fun d => d.isPrefixOf file) with
    | nil => rw [hfil] at h; exact Except.noConfusion h
    | cons d extra =>
      rw [hfil] at h
      cases extra with
      | nil => simp
      | cons e es => simp at h

/-- Witness for C5: zero matching roots and two matching roots at
concrete inputs. -/
theorem c5_root_matching_witness :
    get_module_name [["src".data]] ["tests".data, "A.elm".data] =
      .error .noMatch ∧
    get_module_name [["tests".data], []] ["tests".data, "A.elm".data] =
      .error .ambiguous :=
  ⟨(c5_root_matching _ _).1 (by decide), (c5_root_matching _ _).2.1 (by decide)⟩

/-- Claim C6: module name derivation is a pure deterministic function of
(source roots, file path) — identical inputs give the identical dotted
name — and every dot-separated segment of a returned name satisfies the
uppercase-initial identifier rule. -/
theorem c6_pure_and_upper (dirs : List FsPath) (file : FsPath) :
    (∀ dirs2 file2, dirs = dirs2 → file = file2 →
      get_module_name dirs file = get_module_name dirs2 file2) ∧
    (∀ name, get_module_name dirs file = .ok name →
      ∀ seg ∈ splitDots name, is_upper_name seg = true) := by
  refine ⟨fun dirs2 file2 hd hf => by rw [hd, hf], ?_⟩
  intro name h seg hseg
  unfold get_module_name at h
  cases hfil : dirs.filter (fun d => d.isPrefixOf file) with
  | nil => rw [hfil] at h; exact Except.noConfusion h
  | cons d extra =>
    simp only [hfil] at h
    by_cases hex : extra.isEmpty = true
    · rw [if_pos hex] at h
      by_cases hall : ((file.drop d.length).map removeElm).all is_upper_name
        = true
      · rw [if_pos hall] at h
        by_cases hemp : ((file.drop d.length).map removeElm).isEmpty = true
        · rw [if_pos hemp] at h; exact Except.noConfusion h
        · rw [if_neg hemp] at h
          simp only [Except.ok.injEq] at h
          subst h
          rw [List.all_eq_true] at hall
          have hne : (file.drop d.length).map removeElm ≠ [] := by
            intro hn
            rw [hn] at hemp
            exact hemp rfl
          rw [splitDots_joinDots _ hne
            (fun p hp => is_upper_name_no_dot p (hall p hp))] at hseg
          exact hall seg hseg
      · rw [if_neg hall] at h; exact Except.noConfusion h
    · rw [if_neg hex] at h; exact Except.noConfusion h

/-- Witness for C6: a concrete derivation whose segments are all
uppercase-initial names. -/
theorem c6_pure_and_upper_witness :
    get_module_name [["tests".data]] ["tests".data, "ExampleTest.elm".data] =
      .ok "ExampleTest".data ∧
    (∀ seg ∈ splitDots "ExampleTest".data, is_upper_name seg = true) :=
  ⟨by decide,
    (c6_pure_and_upper [["tests".data]]
      ["tests".data, "ExampleTest.elm".data]).2 "ExampleTest".data
      (by decide)⟩

/-- Claim C10: `.elm` removal applies to every occurrence inside every
path component, not only to a trailing extension: the defining equation
removes an occurrence wherever it stands, the component `Foo.elmBar.elm`
yields `FooBar`, and a directory component `Utils.elm` yields the
segment `Utils`. -/
theorem c10_remove_all_elm :
    (∀ s : Str, removeElm ('.' :: 'e' :: 'l' :: 'm' :: s) = removeElm s) ∧
    removeElm "Foo.elmBar.elm".data = "FooBar".data ∧
    get_module_name [["tests".data]]
        ["tests".data, "Utils.elm".data, "Foo.elmBar.elm".data] =
      .ok "Utils.FooBar".data :=
  ⟨fun _ => rfl, by decide, by decide⟩

/-- Helper: destructure a successful `Except` bind. -/
theorem exceptStep {α β ε : Type} {o : Except ε α} {f : α → Except ε β}
    {b : β} (h : o >>= f = .ok b) : ∃ a, o = .ok a ∧ f a = .ok b := by
  cases o with
  | error e =>
    have he : (Except.error e >>= f : Except ε β) = Except.error e := rfl
    rw [he] at h
    exact Except.noConfusion h
  | ok a => exact ⟨a, rfl, h⟩

/-- Helper: a successful `mapE` preserves the length. -/
theorem mapE_length {α β ε : Type} (f : α → Except ε β) :
    ∀ (l : List α) (res : List β), mapE f l = .ok res →
      res.length = l.length := by
  intro l
  induction l with
  | nil =>
    intro res h
    simp only [mapE, Except.ok.injEq] at h
    subst h
    rfl
  | cons x xs ih =>
    intro res h
    unfold mapE at h
    obtain ⟨y, hy, h⟩ := exceptStep h
    obtain ⟨ys, hys, h⟩ := exceptStep h
    have hres : Except.ok (ε := ε) (y :: ys) = Except.ok res := h
    simp only [Except.ok.injEq] at hres
    subst hres
    simp [ih ys hys]

/-- Claim C8: the generated runner pieces contain one import line per
test module and one test-group record per module whose check list has
exactly one `check <Module>.<identifier>` expression per discovered test
identifier; the one-module/two-tests scenario thus yields exactly one
such line and one record with exactly two check expressions. -/
theorem c8_runner_generation :
    (∀ (dirs : List FsPath) (mods : List TestModule)
      (res : List Str × List Str), runnerParts dirs mods = .ok res →
      res.1.length = mods.length ∧ res.2.length = mods.length) ∧
    (∀ (dirs : List FsPath) (m : TestModule) (name : Str),
      get_module_name dirs m.path = .ok name →
      runnerEntry dirs m =
        .ok ("import ".data ++ name,
          mkRecord name (m.tests.map (mkCheck name))) ∧
      (m.tests.map (mkCheck name)).length = m.tests.length) ∧
    (runnerParts [["tests".data]]
        [⟨["tests".data, "ExampleTest.elm".data],
          ["test1".data, "test2".data]⟩] =
      .ok (["import ExampleTest".data], [exampleRecord]) ∧
     countOccur "check ExampleTest.".data exampleRecord = 2 ∧
     countOccur "check ".data exampleRecord = 2) := by
  refine ⟨?_, ?_, by decide⟩
  · intro dirs mods res h
    unfold runnerParts at h
    obtain ⟨entries, hent, h⟩ := exceptStep h
    have hres : Except.ok (ε := ModuleError)
        (entries.map Prod.fst, entries.map Prod.snd) = Except.ok res := h
    simp only [Except.ok.injEq] at hres
    subst hres
    simp [mapE_length _ _ _ hent]
  · intro dirs m name h
    constructor
    · unfold runnerEntry
      rw [h]
      rfl
    · simp

/-- Witness for C8: the one-module/two-tests scenario has one import
line and one record. -/
theorem c8_runner_generation_witness :
    (["import ExampleTest".data], [exampleRecord]).1.length = 1 ∧
    (["import ExampleTest".data], [exampleRecord]).2.length = 1 :=
  c8_runner_generation.1 [["tests".data]]
    [⟨["tests".data, "ExampleTest.elm".data],
      ["test1".data, "test2".data]⟩]
    (["import ExampleTest".data], [exampleRecord]) (by decide)
